import Mathlib

/-!
Shallow embedding of the reminder-evaluation core of
`src/calender_chatbot.py` (the `check_and_remind` function, lines 123-207,
and the `SENT_REMINDERS` table, line 105).

Modelling conventions:
* instants are integers (seconds); `time_to_event` (a Python `timedelta`)
  becomes an integer number of seconds, so `datetime.timedelta(minutes=-5)`
  is `-300`, etc.;
* the outcome of the external `datetime` parsing calls is carried on the
  event as an `Option`: `StartData.dateTime (some s)` is a `dateTime` start
  string that one of the two accepted formats parses to instant `s`,
  `StartData.dateTime none` one that both formats reject (the code logs and
  `continue`s); `StartData.date (some d)` is a `date` start string that
  `strptime "%Y-%m-%d"` parses to local day `d`, `StartData.date none` one
  it rejects (the code has no handler there, so `ValueError` propagates);
* `now_local` is a pair of its instant and its local calendar date
  (`now_local.date()`), the only two projections the code uses;
* the external string-formatting calls (`strftime('%I:%M %p')` and
  `LOCAL_TIMEZONE.tzname`) are an oracle `FmtOracle` parameter;
* `send_notification` is external (plyer / logging); the engine's emissions
  are returned as a list of `Notif` records, each tagged with the event
  identifier and the milestone whose guard produced it, plus the exact
  title and message strings the code builds;
* the global dict `SENT_REMINDERS : id -> milestone -> bool` becomes an
  association list `SentTable`; an uncaught `ValueError` becomes the
  `raised` flag of `EvalOut` (the loop over the batch aborts there, keeping
  mutations already made, exactly as the Python loop does).
-/

/-- Milestones of the dedup table: `'started'`, `'all_day_today'`, and the
integer keys `threshold_minutes` used at line 180/195 of the source. -/
inductive Milestone where
  | started
  | all_day_today
  | threshold (minutes : Nat)
deriving DecidableEq

/-- Start specification of an event: exactly one of a timed `dateTime`
value or an all-day `date` value, each carried as the outcome of the
external parse (see the module docstring). -/
inductive StartData where
  | dateTime (parsed : Option Int)
  | date (parsed : Option Int)
deriving DecidableEq

/-- Calendar event as the engine sees it; `summary` and `htmlLink` already
carry the `.get` defaults (`'No Title'` / `'#'`) applied at lines 138-139. -/
structure Event where
  id : String
  summary : String
  htmlLink : String
  start : StartData
deriving DecidableEq

/-- Notification request: the `(title, message)` pair handed to
`send_notification`, tagged with the event identifier and the milestone
whose guard emitted it. -/
structure Notif where
  eventId : String
  milestone : Milestone
  title : String
  message : String
deriving DecidableEq

/-- Outcome of `datetime.datetime.now(LOCAL_TIMEZONE)`: its instant in
seconds and its local calendar date (`now_local.date()`) as a day index. -/
structure NowTime where
  instant : Int
  date : Int

/-- Oracle for the external string-formatting calls used in the upcoming
message: `strftime('%I:%M %p')` and `LOCAL_TIMEZONE.tzname`, both applied
to `event_start_time_local`. -/
structure FmtOracle where
  strfTime : Int → String
  tzName : Int → String

/-- The `SENT_REMINDERS` dict: event identifier to set of fired milestones. -/
abbrev SentTable := List (String × List Milestone)

/-- Membership test `event_id in SENT_REMINDERS`. -/
def hasKey : SentTable → String → Bool
  | [], _ => false
  | (j, _) :: rest, i => if j = i then true else hasKey rest i

/-- Lines 141-142: `if event_id not in SENT_REMINDERS: SENT_REMINDERS[event_id] = {}`. -/
def ensureKey (t : SentTable) (i : String) : SentTable :=
  if hasKey t i then t else t ++ [(i, [])]

/-- Dict read `SENT_REMINDERS[event_id].get(milestone, False)`. -/
def getFlag : SentTable → String → Milestone → Bool
  | [], _, _ => false
  | (j, fs) :: rest, i, m => if j = i then decide (m ∈ fs) else getFlag rest i m

/-- Dict write `SENT_REMINDERS[event_id][milestone] = True`. -/
def setFlag : SentTable → String → Milestone → SentTable
  | [], _, _ => []
  | (j, fs) :: rest, i, m =>
      if j = i then (j, if m ∈ fs then fs else fs ++ [m]) :: setFlag rest i m
      else (j, fs) :: setFlag rest i m

/-- Line 160-164: `reminder_thresholds = [15, 5, 1]`. -/
def reminder_thresholds : List Nat := [15, 5, 1]

/-- Descending insertion of one element (used to model Python `sorted`). -/
def insertDesc (x : Nat) : List Nat → List Nat
  | [] => [x]
  | y :: ys => if y ≤ x then x :: y :: ys else y :: insertDesc x ys

/-- Model of `sorted(reminder_thresholds, reverse=True)` at line 175. -/
def sortDesc : List Nat → List Nat
  | [] => []
  | x :: xs => insertDesc x (sortDesc xs)

/-- Line 178: the tolerance window
`timedelta(seconds=-10) <= time_to_event - threshold_timedelta < timedelta(minutes=1)`. -/
def thrWindow (m : Nat) (tte : Int) : Prop :=
  -10 ≤ tte - 60 * (m : Int) ∧ tte - 60 * (m : Int) < 60

instance (m : Nat) (tte : Int) : Decidable (thrWindow m tte) :=
  decidable_of_iff (-10 ≤ tte - 60 * (m : Int) ∧ tte - 60 * (m : Int) < 60) Iff.rfl

/-- Lines 183-187: `minutes_left = int(time_to_event.total_seconds() // 60)`
(floor division) and its rendering. -/
def minutesText (time_to_event : Int) : String :=
  let minutes_left := Int.fdiv time_to_event 60
  if minutes_left = 0 then "less than a minute" else toString minutes_left ++ " minutes"

/-- Lines 189-193: the upcoming-notification message body. -/
def upcomingMessage (fmt : FmtOracle) (start_local time_to_event : Int) (link : String) : String :=
  "Starts in approx. " ++ minutesText time_to_event ++ " at " ++ fmt.strfTime start_local
    ++ " (" ++ fmt.tzName start_local ++ ").\n" ++ "Link: " ++ link

/-- Result of one engine invocation: the table after the call, the emitted
notifications in order, and whether an uncaught `ValueError` aborted it. -/
structure EvalOut where
  table : SentTable
  notifs : List Notif
  raised : Bool
deriving DecidableEq

/-- Lines 175-197: the descending threshold loop with its `break`. -/
def thresholdLoop (fmt : FmtOracle) (e : Event) (start_local time_to_event : Int) :
    SentTable → List Nat → SentTable × List Notif
  | t, [] => (t, [])
  | t, m :: rest =>
      if thrWindow m time_to_event ∧ 0 < time_to_event ∧
          getFlag t e.id (Milestone.threshold m) = false then
        (setFlag t e.id (Milestone.threshold m),
         [⟨e.id, Milestone.threshold m, "Upcoming Event: " ++ e.summary,
           upcomingMessage fmt start_local time_to_event e.htmlLink⟩])
      else thresholdLoop fmt e start_local time_to_event t rest

/-- Lines 136-207: the per-event body of the `for event in events` loop. -/
def processEvent (fmt : FmtOracle) (now : NowTime) (t : SentTable) (e : Event) : EvalOut :=
  let t1 := ensureKey t e.id
  match e.start with
  | StartData.dateTime none => ⟨t1, [], false⟩
  | StartData.dateTime (some start_instant) =>
      let time_to_event : Int := start_instant - now.instant
      if -300 < time_to_event ∧ time_to_event ≤ 0 then
        if getFlag t1 e.id Milestone.started = false then
          ⟨setFlag t1 e.id Milestone.started,
           [⟨e.id, Milestone.started, "Event Started: " ++ e.summary,
             "It\x27s happening now! Link: " ++ e.htmlLink⟩], false⟩
        else ⟨t1, [], false⟩
      else
        let r := thresholdLoop fmt e start_instant time_to_event t1 (sortDesc reminder_thresholds)
        ⟨r.1, r.2, false⟩
  | StartData.date none => ⟨t1, [], true⟩
  | StartData.date (some event_date) =>
      if event_date = now.date ∧ getFlag t1 e.id Milestone.all_day_today = false then
        ⟨setFlag t1 e.id Milestone.all_day_today,
         [⟨e.id, Milestone.all_day_today, "All-Day Event Today: " ++ e.summary,
           "This all-day event is happening today! Details: " ++ e.htmlLink⟩], false⟩
      else ⟨t1, [], false⟩

/-- One call of `check_and_remind` on an already-fetched batch: the
`for event in events` loop, aborted by an uncaught `ValueError` (with the
mutations already made to the global table kept, as in Python). An empty
batch is the early `return` at line 134. -/
def check_and_remind (fmt : FmtOracle) (now : NowTime) : SentTable → List Event → EvalOut
  | t, [] => ⟨t, [], false⟩
  | t, e :: rest =>
      let o := processEvent fmt now t e
      if o.raised then ⟨o.table, o.notifs, true⟩
      else
        let o2 := check_and_remind fmt now o.table rest
        ⟨o2.table, o.notifs ++ o2.notifs, o2.raised⟩

/-- A sequence of scheduler-driven calls: each element is the `now` of the
call and the batch the Event Source returned for it; the table threads
through (the scheduler keeps invoking `check_and_remind` even after a call
raised, since APScheduler catches job exceptions). -/
def runBatches (fmt : FmtOracle) : SentTable → List (NowTime × List Event) → SentTable × List Notif
  | t, [] => (t, [])
  | t, b :: rest =>
      let o := check_and_remind fmt b.1 t b.2
      let r := runBatches fmt o.table rest
      (r.1, o.notifs ++ r.2)

/-- Number of emitted notifications tagged with a given identifier and
milestone. -/
def countNotifs (ns : List Notif) (i : String) (m : Milestone) : Nat :=
  ns.countP fun n => decide (n.eventId = i ∧ n.milestone = m)

/-- Boolean test that some emitted notification carries the given
identifier and milestone. -/
def notifFor (ns : List Notif) (i : String) (m : Milestone) : Bool :=
  ns.any fun n => decide (n.eventId = i ∧ n.milestone = m)

/-- Numeric view of one dedup flag, for counting arguments. -/
def flagNat (t : SentTable) (i : String) (m : Milestone) : Nat :=
  if getFlag t i m = true then 1 else 0

/-- Flag-set inclusion between two tables. -/
def flagLe (t t2 : SentTable) : Prop :=
  ∀ i m, getFlag t i m = true → getFlag t2 i m = true

/-- Key-set inclusion between two tables. -/
def keyLe (t t2 : SentTable) : Prop :=
  ∀ i, hasKey t i = true → hasKey t2 i = true

/-- Chronology of a run: the first call is at or after instant `s`, and the
wall clock never goes backwards from call to call. -/
def chronoFrom (s : Int) : List (NowTime × List Event) → Prop
  | [] => True
  | b :: rest => s ≤ b.1.instant ∧ chronoFrom b.1.instant rest

/-- The closed set of milestones the engine ever consults for one event is
`started`, `all_day_today`, and `threshold_m` for the configured thresholds;
this predicate says all of them are already marked fired for an identifier
(the "all milestones already sent" state). -/
abbrev allMilestonesSent (t : SentTable) (i : String) : Prop :=
  getFlag t i Milestone.started = true ∧
  getFlag t i Milestone.all_day_today = true ∧
  ∀ m ∈ reminder_thresholds, getFlag t i (Milestone.threshold m) = true

/-! ### Concrete sample inputs (used to exercise the theorems on closed instances) -/

/-- Trivial formatting oracle: both external formatters return `""`. -/
def fmt0 : FmtOracle := ⟨fun _ => "", fun _ => ""⟩

/-- A sample `now`: instant `0`, local date `0`. -/
def now0 : NowTime := ⟨0, 0⟩

/-- Timed event starting exactly at `now0` (inside the started window). -/
def evStartedDemo : Event := ⟨"e", "T", "#", StartData.dateTime (some 0)⟩

/-- Timed event starting in 890 s (inside the 15-minute tolerance window). -/
def evThrDemo : Event := ⟨"w2", "T", "#", StartData.dateTime (some 890)⟩

/-- Timed event whose start already lies 300 s in the past at `now0`. -/
def evPastDemo : Event := ⟨"w10", "T", "#", StartData.dateTime (some (-300))⟩

/-- Timed event whose `dateTime` value neither accepted format parses. -/
def evBadTimed : Event := ⟨"e1", "No Title", "#", StartData.dateTime none⟩

/-- All-day event whose `date` value (for example `"not-a-date"`) `strptime`
rejects. -/
def evBadDate : Event := ⟨"a1", "No Title", "#", StartData.date none⟩

/-- All-day event dated on `now0`'s local date. -/
def evAllDay : Event := ⟨"a2", "T", "#", StartData.date (some 0)⟩

/-- Table in which every milestone of the closed set is already fired for
identifier `"e"`. -/
def tAllSent : SentTable :=
  [("e", [Milestone.started, Milestone.all_day_today, Milestone.threshold 15,
    Milestone.threshold 5, Milestone.threshold 1])]

/-- One-call run: `evStartedDemo` polled once at `now0`. -/
def bsDemo : List (NowTime × List Event) := [(now0, [evStartedDemo])]

/-- A table in which `evStartedDemo`'s started flag is already set. -/
def tDemo : SentTable := [("e", [Milestone.started])]

/-! ### Basic lemmas about the dedup table -/

theorem getFlag_append_single (t : SentTable) (j i : String) (m : Milestone) :
    getFlag (t ++ [(j, [])]) i m = getFlag t i m := by
  induction t with
  | nil => simp [getFlag]
  | cons hd tl ih =>
      obtain ⟨k, fs⟩ := hd
      by_cases h : k = i <;> simp [getFlag, h, ih]

theorem getFlag_ensureKey (t : SentTable) (j i : String) (m : Milestone) :
    getFlag (ensureKey t j) i m = getFlag t i m := by
  unfold ensureKey
  split
  · rfl
  · exact getFlag_append_single t j i m

theorem hasKey_append_self (t : SentTable) (i : String) (fs : List Milestone) :
    hasKey (t ++ [(i, fs)]) i = true := by
  induction t with
  | nil => simp [hasKey]
  | cons hd tl ih =>
      obtain ⟨k, gs⟩ := hd
      by_cases h : k = i <;> simp [hasKey, h, ih]

theorem hasKey_append_left (t l : SentTable) (i : String) (h : hasKey t i = true) :
    hasKey (t ++ l) i = true := by
  induction t with
  | nil => simp [hasKey] at h
  | cons hd tl ih =>
      obtain ⟨k, gs⟩ := hd
      by_cases hk : k = i
      · simp [hasKey, hk]
      · simp [hasKey, hk] at h ⊢
        exact ih h

theorem hasKey_ensureKey_self (t : SentTable) (i : String) :
    hasKey (ensureKey t i) i = true := by
  unfold ensureKey
  split
  · assumption
  · exact hasKey_append_self t i []

theorem hasKey_ensureKey_mono (t : SentTable) (j i : String) (h : hasKey t i = true) :
    hasKey (ensureKey t j) i = true := by
  unfold ensureKey
  split
  · exact h
  · exact hasKey_append_left t _ i h

theorem ensureKey_of_hasKey {t : SentTable} {i : String} (h : hasKey t i = true) :
    ensureKey t i = t := by
  simp [ensureKey, h]

theorem hasKey_setFlag (t : SentTable) (j i : String) (m : Milestone) :
    hasKey (setFlag t j m) i = hasKey t i := by
  induction t with
  | nil => rfl
  | cons hd tl ih =>
      obtain ⟨k, fs⟩ := hd
      by_cases hkj : k = j
      · subst hkj
        by_cases hki : k = i <;> simp [setFlag, hasKey, hki, ih]
      · by_cases hki : k = i
        · subst hki
          simp [setFlag, hasKey, hkj, ih]
        · simp [setFlag, hasKey, hkj, hki, ih]

theorem getFlag_true_hasKey {t : SentTable} {i : String} {m : Milestone}
    (h : getFlag t i m = true) : hasKey t i = true := by
  induction t with
  | nil => simp [getFlag] at h
  | cons hd tl ih =>
      obtain ⟨k, fs⟩ := hd
      by_cases hk : k = i
      · simp [hasKey, hk]
      · simp [getFlag, hk] at h
        simp [hasKey, hk]
        exact ih h

theorem getFlag_setFlag_self {t : SentTable} {i : String} (m : Milestone)
    (h : hasKey t i = true) : getFlag (setFlag t i m) i m = true := by
  induction t with
  | nil => simp [hasKey] at h
  | cons hd tl ih =>
      obtain ⟨k, fs⟩ := hd
      by_cases hk : k = i
      · by_cases hm : m ∈ fs <;> simp [setFlag, getFlag, hk, hm]
      · simp [hasKey, hk] at h
        simp [setFlag, getFlag, hk]
        exact ih h

theorem getFlag_setFlag_of_ne {i j : String} {m m2 : Milestone}
    (h : i ≠ j ∨ m ≠ m2) (t : SentTable) :
    getFlag (setFlag t j m2) i m = getFlag t i m := by
  induction t with
  | nil => rfl
  | cons hd tl ih =>
      obtain ⟨k, fs⟩ := hd
      by_cases hkj : k = j
      · subst hkj
        by_cases hki : k = i
        · subst hki
          have hm : m ≠ m2 := h.resolve_left (fun hc => hc rfl)
          by_cases hmem : m2 ∈ fs <;>
            simp [setFlag, getFlag, hmem, hm, List.mem_append]
        · simp [setFlag, getFlag, hki, ih]
      · by_cases hki : k = i
        · subst hki
          simp [setFlag, getFlag, hkj]
        · simp [setFlag, getFlag, hkj, hki, ih]

theorem getFlag_setFlag_mono {t : SentTable} {i : String} {m : Milestone}
    (j : String) (m2 : Milestone) (h : getFlag t i m = true) :
    getFlag (setFlag t j m2) i m = true := by
  by_cases hij : i = j
  · by_cases hm : m = m2
    · subst hij; subst hm
      exact getFlag_setFlag_self m (getFlag_true_hasKey h)
    · rw [getFlag_setFlag_of_ne (Or.inr hm)]; exact h
  · rw [getFlag_setFlag_of_ne (Or.inl hij)]; exact h

theorem flagLe_refl (t : SentTable) : flagLe t t := fun _ _ h => h

theorem flagLe_trans {a b c : SentTable} (h1 : flagLe a b) (h2 : flagLe b c) : flagLe a c :=
  fun i m h => h2 i m (h1 i m h)

theorem keyLe_refl (t : SentTable) : keyLe t t := fun _ h => h

theorem keyLe_trans {a b c : SentTable} (h1 : keyLe a b) (h2 : keyLe b c) : keyLe a c :=
  fun i h => h2 i (h1 i h)

theorem flagLe_ensureKey (t : SentTable) (j : String) : flagLe t (ensureKey t j) :=
  fun _ _ h => by rw [getFlag_ensureKey]; exact h

theorem flagLe_setFlag (t : SentTable) (j : String) (m2 : Milestone) :
    flagLe t (setFlag t j m2) :=
  fun _ _ h => getFlag_setFlag_mono j m2 h

theorem keyLe_ensureKey (t : SentTable) (j : String) : keyLe t (ensureKey t j) :=
  fun i h => hasKey_ensureKey_mono t j i h

theorem keyLe_setFlag (t : SentTable) (j : String) (m2 : Milestone) :
    keyLe t (setFlag t j m2) :=
  fun i h => by rw [hasKey_setFlag]; exact h

/-! ### Unfolding equations for the engine -/

theorem sortDesc_thresholds : sortDesc reminder_thresholds = [15, 5, 1] := rfl

@[simp]
theorem thresholdLoop_nil (fmt : FmtOracle) (e : Event) (s tte : Int) (t : SentTable) :
    thresholdLoop fmt e s tte t [] = (t, []) := rfl

theorem thresholdLoop_cons (fmt : FmtOracle) (e : Event) (s tte : Int) (t : SentTable)
    (m : Nat) (rest : List Nat) :
    thresholdLoop fmt e s tte t (m :: rest) =
      if thrWindow m tte ∧ 0 < tte ∧ getFlag t e.id (Milestone.threshold m) = false then
        (setFlag t e.id (Milestone.threshold m),
         [⟨e.id, Milestone.threshold m, "Upcoming Event: " ++ e.summary,
           upcomingMessage fmt s tte e.htmlLink⟩])
      else thresholdLoop fmt e s tte t rest := rfl

theorem processEvent_dateTime_none (fmt : FmtOracle) (now : NowTime) (t : SentTable)
    (e : Event) (h : e.start = StartData.dateTime none) :
    processEvent fmt now t e = ⟨ensureKey t e.id, [], false⟩ := by
  simp [processEvent, h]

theorem processEvent_date_none (fmt : FmtOracle) (now : NowTime) (t : SentTable)
    (e : Event) (h : e.start = StartData.date none) :
    processEvent fmt now t e = ⟨ensureKey t e.id, [], true⟩ := by
  simp [processEvent, h]

theorem processEvent_dateTime_some (fmt : FmtOracle) (now : NowTime) (t : SentTable)
    (e : Event) (s : Int) (h : e.start = StartData.dateTime (some s)) :
    processEvent fmt now t e =
      (if -300 < s - now.instant ∧ s - now.instant ≤ 0 then
        if getFlag (ensureKey t e.id) e.id Milestone.started = false then
          ⟨setFlag (ensureKey t e.id) e.id Milestone.started,
           [⟨e.id, Milestone.started, "Event Started: " ++ e.summary,
             "It\x27s happening now! Link: " ++ e.htmlLink⟩], false⟩
        else ⟨ensureKey t e.id, [], false⟩
      else
        let r := thresholdLoop fmt e s (s - now.instant) (ensureKey t e.id) [15, 5, 1]
        ⟨r.1, r.2, false⟩) := by
  simp [processEvent, h, sortDesc_thresholds]

theorem processEvent_date_some (fmt : FmtOracle) (now : NowTime) (t : SentTable)
    (e : Event) (d : Int) (h : e.start = StartData.date (some d)) :
    processEvent fmt now t e =
      (if d = now.date ∧ getFlag (ensureKey t e.id) e.id Milestone.all_day_today = false then
        ⟨setFlag (ensureKey t e.id) e.id Milestone.all_day_today,
         [⟨e.id, Milestone.all_day_today, "All-Day Event Today: " ++ e.summary,
           "This all-day event is happening today! Details: " ++ e.htmlLink⟩], false⟩
      else ⟨ensureKey t e.id, [], false⟩) := by
  simp [processEvent, h]

@[simp]
theorem check_and_remind_nil (fmt : FmtOracle) (now : NowTime) (t : SentTable) :
    check_and_remind fmt now t [] = ⟨t, [], false⟩ := rfl

theorem check_and_remind_cons (fmt : FmtOracle) (now : NowTime) (t : SentTable)
    (e : Event) (rest : List Event) :
    check_and_remind fmt now t (e :: rest) =
      (let o := processEvent fmt now t e
      if o.raised then ⟨o.table, o.notifs, true⟩
      else
        let o2 := check_and_remind fmt now o.table rest
        ⟨o2.table, o.notifs ++ o2.notifs, o2.raised⟩) := rfl

@[simp]
theorem runBatches_nil (fmt : FmtOracle) (t : SentTable) :
    runBatches fmt t [] = (t, []) := rfl

theorem runBatches_cons (fmt : FmtOracle) (t : SentTable)
    (b : NowTime × List Event) (rest : List (NowTime × List Event)) :
    runBatches fmt t (b :: rest) =
      (let o := check_and_remind fmt b.1 t b.2
      let r := runBatches fmt o.table rest
      (r.1, o.notifs ++ r.2)) := rfl

/-! ### Monotonicity: milestone flags are never cleared, keys never dropped -/

theorem thresholdLoop_flagLe (fmt : FmtOracle) (e : Event) (s tte : Int) :
    ∀ (ms : List Nat) (t : SentTable), flagLe t (thresholdLoop fmt e s tte t ms).1 := by
  intro ms
  induction ms with
  | nil => intro t; exact flagLe_refl t
  | cons m rest ih =>
      intro t
      rw [thresholdLoop_cons]
      split
      · exact flagLe_setFlag t e.id (Milestone.threshold m)
      · exact ih t

theorem thresholdLoop_keyLe (fmt : FmtOracle) (e : Event) (s tte : Int) :
    ∀ (ms : List Nat) (t : SentTable), keyLe t (thresholdLoop fmt e s tte t ms).1 := by
  intro ms
  induction ms with
  | nil => intro t; exact keyLe_refl t
  | cons m rest ih =>
      intro t
      rw [thresholdLoop_cons]
      split
      · exact keyLe_setFlag t e.id (Milestone.threshold m)
      · exact ih t

theorem processEvent_flagLe (fmt : FmtOracle) (now : NowTime) (t : SentTable) (e : Event) :
    flagLe t (processEvent fmt now t e).table := by
  cases hs : e.start with
  | dateTime p =>
      cases p with
      | none => rw [processEvent_dateTime_none fmt now t e hs]; exact flagLe_ensureKey t e.id
      | some s =>
          rw [processEvent_dateTime_some fmt now t e s hs]
          split
          · split
            · exact flagLe_trans (flagLe_ensureKey t e.id) (flagLe_setFlag _ e.id Milestone.started)
            · exact flagLe_ensureKey t e.id
          · exact flagLe_trans (flagLe_ensureKey t e.id)
              (thresholdLoop_flagLe fmt e s (s - now.instant) [15, 5, 1] (ensureKey t e.id))
  | date p =>
      cases p with
      | none => rw [processEvent_date_none fmt now t e hs]; exact flagLe_ensureKey t e.id
      | some d =>
          rw [processEvent_date_some fmt now t e d hs]
          split
          · exact flagLe_trans (flagLe_ensureKey t e.id)
              (flagLe_setFlag _ e.id Milestone.all_day_today)
          · exact flagLe_ensureKey t e.id

theorem processEvent_keyLe (fmt : FmtOracle) (now : NowTime) (t : SentTable) (e : Event) :
    keyLe t (processEvent fmt now t e).table := by
  cases hs : e.start with
  | dateTime p =>
      cases p with
      | none => rw [processEvent_dateTime_none fmt now t e hs]; exact keyLe_ensureKey t e.id
      | some s =>
          rw [processEvent_dateTime_some fmt now t e s hs]
          split
          · split
            · exact keyLe_trans (keyLe_ensureKey t e.id) (keyLe_setFlag _ e.id Milestone.started)
            · exact keyLe_ensureKey t e.id
          · exact keyLe_trans (keyLe_ensureKey t e.id)
              (thresholdLoop_keyLe fmt e s (s - now.instant) [15, 5, 1] (ensureKey t e.id))
  | date p =>
      cases p with
      | none => rw [processEvent_date_none fmt now t e hs]; exact keyLe_ensureKey t e.id
      | some d =>
          rw [processEvent_date_some fmt now t e d hs]
          split
          · exact keyLe_trans (keyLe_ensureKey t e.id)
              (keyLe_setFlag _ e.id Milestone.all_day_today)
          · exact keyLe_ensureKey t e.id

theorem processEvent_hasKey_self (fmt : FmtOracle) (now : NowTime) (t : SentTable) (e : Event) :
    hasKey (processEvent fmt now t e).table e.id = true := by
  cases hs : e.start with
  | dateTime p =>
      cases p with
      | none => rw [processEvent_dateTime_none fmt now t e hs]; exact hasKey_ensureKey_self t e.id
      | some s =>
          rw [processEvent_dateTime_some fmt now t e s hs]
          split
          · split
            · simp [hasKey_setFlag, hasKey_ensureKey_self]
            · exact hasKey_ensureKey_self t e.id
          · exact thresholdLoop_keyLe fmt e s (s - now.instant) [15, 5, 1] (ensureKey t e.id)
              e.id (hasKey_ensureKey_self t e.id)
  | date p =>
      cases p with
      | none => rw [processEvent_date_none fmt now t e hs]; exact hasKey_ensureKey_self t e.id
      | some d =>
          rw [processEvent_date_some fmt now t e d hs]
          split
          · simp [hasKey_setFlag, hasKey_ensureKey_self]
          · exact hasKey_ensureKey_self t e.id

theorem check_and_remind_flagLe (fmt : FmtOracle) (now : NowTime) :
    ∀ (evs : List Event) (t : SentTable), flagLe t (check_and_remind fmt now t evs).table := by
  intro evs
  induction evs with
  | nil => intro t; exact flagLe_refl t
  | cons e rest ih =>
      intro t
      rw [check_and_remind_cons]
      simp only []
      split
      · exact processEvent_flagLe fmt now t e
      · exact flagLe_trans (processEvent_flagLe fmt now t e)
          (ih (processEvent fmt now t e).table)

theorem check_and_remind_keyLe (fmt : FmtOracle) (now : NowTime) :
    ∀ (evs : List Event) (t : SentTable), keyLe t (check_and_remind fmt now t evs).table := by
  intro evs
  induction evs with
  | nil => intro t; exact keyLe_refl t
  | cons e rest ih =>
      intro t
      rw [check_and_remind_cons]
      simp only []
      split
      · exact processEvent_keyLe fmt now t e
      · exact keyLe_trans (processEvent_keyLe fmt now t e)
          (ih (processEvent fmt now t e).table)

theorem runBatches_flagLe (fmt : FmtOracle) :
    ∀ (bs : List (NowTime × List Event)) (t : SentTable), flagLe t (runBatches fmt t bs).1 := by
  intro bs
  induction bs with
  | nil => intro t; exact flagLe_refl t
  | cons b rest ih =>
      intro t
      rw [runBatches_cons]
      exact flagLe_trans (check_and_remind_flagLe fmt b.1 b.2 t)
        (ih (check_and_remind fmt b.1 t b.2).table)

theorem runBatches_keyLe (fmt : FmtOracle) :
    ∀ (bs : List (NowTime × List Event)) (t : SentTable), keyLe t (runBatches fmt t bs).1 := by
  intro bs
  induction bs with
  | nil => intro t; exact keyLe_refl t
  | cons b rest ih =>
      intro t
      rw [runBatches_cons]
      exact keyLe_trans (check_and_remind_keyLe fmt b.1 b.2 t)
        (ih (check_and_remind fmt b.1 t b.2).table)

/-! ### Counting: each emitted notification flips its flag from unset to set -/

@[simp]
theorem countNotifs_nil (i : String) (m : Milestone) : countNotifs [] i m = 0 := rfl

theorem countNotifs_cons (n : Notif) (ns : List Notif) (i : String) (m : Milestone) :
    countNotifs (n :: ns) i m =
      (if n.eventId = i ∧ n.milestone = m then 1 else 0) + countNotifs ns i m := by
  simp [countNotifs, List.countP_cons]
  split <;> omega

theorem countNotifs_append (a b : List Notif) (i : String) (m : Milestone) :
    countNotifs (a ++ b) i m = countNotifs a i m + countNotifs b i m := by
  simp [countNotifs, List.countP_append]

theorem flagNat_of_true {t : SentTable} {i : String} {m : Milestone}
    (h : getFlag t i m = true) : flagNat t i m = 1 := by simp [flagNat, h]

theorem flagNat_of_false {t : SentTable} {i : String} {m : Milestone}
    (h : getFlag t i m = false) : flagNat t i m = 0 := by simp [flagNat, h]

theorem flagNat_le_one (t : SentTable) (i : String) (m : Milestone) :
    flagNat t i m ≤ 1 := by
  unfold flagNat; split <;> omega

@[simp]
theorem flagNat_ensureKey (t : SentTable) (j i : String) (m : Milestone) :
    flagNat (ensureKey t j) i m = flagNat t i m := by
  simp [flagNat, getFlag_ensureKey]

theorem flagNat_setFlag_of_ne {i j : String} {m m2 : Milestone}
    (h : i ≠ j ∨ m ≠ m2) (t : SentTable) :
    flagNat (setFlag t j m2) i m = flagNat t i m := by
  simp [flagNat, getFlag_setFlag_of_ne h]

theorem thresholdLoop_count (fmt : FmtOracle) (e : Event) (s tte : Int)
    (i : String) (mm : Milestone) :
    ∀ (ms : List Nat) (t : SentTable), hasKey t e.id = true →
      countNotifs (thresholdLoop fmt e s tte t ms).2 i mm + flagNat t i mm
        = flagNat (thresholdLoop fmt e s tte t ms).1 i mm := by
  intro ms
  induction ms with
  | nil => intro t _; simp
  | cons m rest ih =>
      intro t hk
      rw [thresholdLoop_cons]
      split
      · next hc =>
          by_cases hpair : i = e.id ∧ mm = Milestone.threshold m
          · obtain ⟨hi, hm⟩ := hpair
            subst hi; subst hm
            rw [flagNat_of_false hc.2.2, flagNat_of_true (getFlag_setFlag_self _ hk)]
            simp [countNotifs, List.countP_cons]
          · have hcond : ¬((e.id : String) = i ∧ Milestone.threshold m = mm) :=
              fun hx => hpair ⟨hx.1.symm, hx.2.symm⟩
            have hne : i ≠ e.id ∨ mm ≠ Milestone.threshold m := not_and_or.mp hpair
            rw [flagNat_setFlag_of_ne hne]
            simp [countNotifs, List.countP_cons, hcond]
      · exact ih t hk

theorem processEvent_count (fmt : FmtOracle) (now : NowTime) (t : SentTable) (e : Event)
    (i : String) (mm : Milestone) :
    countNotifs (processEvent fmt now t e).notifs i mm + flagNat t i mm
      = flagNat (processEvent fmt now t e).table i mm := by
  cases hs : e.start with
  | dateTime p =>
      cases p with
      | none => rw [processEvent_dateTime_none fmt now t e hs]; simp
      | some s =>
          rw [processEvent_dateTime_some fmt now t e s hs]
          split
          · split
            · next hflag =>
                have hf : getFlag t e.id Milestone.started = false := by
                  rw [← getFlag_ensureKey t e.id]; exact hflag
                by_cases hpair : i = e.id ∧ mm = Milestone.started
                · obtain ⟨hi, hm⟩ := hpair
                  subst hi; subst hm
                  rw [flagNat_of_false hf,
                    flagNat_of_true (getFlag_setFlag_self _ (hasKey_ensureKey_self t e.id))]
                  simp [countNotifs, List.countP_cons]
                · have hcond : ¬((e.id : String) = i ∧ Milestone.started = mm) :=
                    fun hx => hpair ⟨hx.1.symm, hx.2.symm⟩
                  have hne : i ≠ e.id ∨ mm ≠ Milestone.started := not_and_or.mp hpair
                  rw [flagNat_setFlag_of_ne hne, flagNat_ensureKey]
                  simp [countNotifs, List.countP_cons, hcond]
            · simp
          · simp only []
            rw [← flagNat_ensureKey t e.id i mm]
            exact thresholdLoop_count fmt e s (s - now.instant) i mm [15, 5, 1]
              (ensureKey t e.id) (hasKey_ensureKey_self t e.id)
  | date p =>
      cases p with
      | none => rw [processEvent_date_none fmt now t e hs]; simp
      | some d =>
          rw [processEvent_date_some fmt now t e d hs]
          split
          · next hc =>
              have hf : getFlag t e.id Milestone.all_day_today = false := by
                rw [← getFlag_ensureKey t e.id]; exact hc.2
              by_cases hpair : i = e.id ∧ mm = Milestone.all_day_today
              · obtain ⟨hi, hm⟩ := hpair
                subst hi; subst hm
                rw [flagNat_of_false hf,
                  flagNat_of_true (getFlag_setFlag_self _ (hasKey_ensureKey_self t e.id))]
                simp [countNotifs, List.countP_cons]
              · have hcond : ¬((e.id : String) = i ∧ Milestone.all_day_today = mm) :=
                  fun hx => hpair ⟨hx.1.symm, hx.2.symm⟩
                have hne : i ≠ e.id ∨ mm ≠ Milestone.all_day_today := not_and_or.mp hpair
                rw [flagNat_setFlag_of_ne hne, flagNat_ensureKey]
                simp [countNotifs, List.countP_cons, hcond]
          · simp

theorem check_and_remind_count (fmt : FmtOracle) (now : NowTime) (i : String) (mm : Milestone) :
    ∀ (evs : List Event) (t : SentTable),
      countNotifs (check_and_remind fmt now t evs).notifs i mm + flagNat t i mm
        = flagNat (check_and_remind fmt now t evs).table i mm := by
  intro evs
  induction evs with
  | nil => intro t; simp
  | cons e rest ih =>
      intro t
      rw [check_and_remind_cons]
      simp only []
      split
      · exact processEvent_count fmt now t e i mm
      · have h1 := processEvent_count fmt now t e i mm
        have h2 := ih (processEvent fmt now t e).table
        simp only [countNotifs_append]
        omega

theorem runBatches_count (fmt : FmtOracle) (i : String) (mm : Milestone) :
    ∀ (bs : List (NowTime × List Event)) (t : SentTable),
      countNotifs (runBatches fmt t bs).2 i mm + flagNat t i mm
        = flagNat (runBatches fmt t bs).1 i mm := by
  intro bs
  induction bs with
  | nil => intro t; simp
  | cons b rest ih =>
      intro t
      rw [runBatches_cons]
      simp only [countNotifs_append]
      have h1 := check_and_remind_count fmt b.1 i mm b.2 t
      have h2 := ih (check_and_remind fmt b.1 t b.2).table
      omega

/-! ### Helper: the threshold loop is inert once the start time has passed -/

theorem thresholdLoop_nonpos (fmt : FmtOracle) (e : Event) (s tte : Int)
    (h : ¬ 0 < tte) : ∀ (ms : List Nat) (t : SentTable),
    thresholdLoop fmt e s tte t ms = (t, []) := by
  intro ms
  induction ms with
  | nil => intro t; rfl
  | cons m rest ih =>
      intro t
      rw [thresholdLoop_cons, if_neg (fun hc => h hc.2.1)]
      exact ih t

/-! ### Claim C1 -/

/-- C1: across any sequence of `check_and_remind` calls (any batches, any
call times) starting from the empty `SENT_REMINDERS` table, at most one
notification is emitted per (identifier, milestone) pair; and a milestone
flag, once set in the table, is never cleared by any later call. -/
theorem C1_at_most_once_and_never_cleared (fmt : FmtOracle)
    (bs : List (NowTime × List Event)) (i : String) (m : Milestone) :
    countNotifs (runBatches fmt [] bs).2 i m ≤ 1 ∧
    (∀ t : SentTable, getFlag t i m = true → getFlag (runBatches fmt t bs).1 i m = true) := by
  constructor
  · have h := runBatches_count fmt i m bs []
    have h2 := flagNat_le_one (runBatches fmt [] bs).1 i m
    have h0 : flagNat ([] : SentTable) i m = 0 := rfl
    omega
  · intro t h
    exact runBatches_flagLe fmt bs t i m h

/-- Witness for C1 at a concrete run: one poll of `evStartedDemo` at `now0`,
and a table in which the started flag is already set. -/
theorem C1_at_most_once_and_never_cleared_witness :
    getFlag tDemo "e" Milestone.started = true ∧
    countNotifs (runBatches fmt0 [] bsDemo).2 "e" Milestone.started ≤ 1 ∧
    getFlag (runBatches fmt0 tDemo bsDemo).1 "e" Milestone.started = true :=
  ⟨by decide,
   (C1_at_most_once_and_never_cleared fmt0 bsDemo "e" Milestone.started).1,
   (C1_at_most_once_and_never_cleared fmt0 bsDemo "e" Milestone.started).2 tDemo (by decide)⟩

/-! ### Claim C4 -/

/-- C4 (counterexample to the claim as stated): an unparseable timed event
with a fresh identifier emits nothing, but the state table is NOT unchanged:
lines 141-142 run before the parse, so an empty entry is created for the
identifier. -/
theorem C4_counterexample :
    (processEvent fmt0 now0 [] evBadTimed).notifs = [] ∧
    (processEvent fmt0 now0 [] evBadTimed).table ≠ ([] : SentTable) := by
  constructor
  · rfl
  · decide

/-- C4 (amended): a timed event whose start neither accepted format parses
is skipped for the pass: no notification, no exception, and the table is
unchanged except for the lazy creation of an empty entry for the identifier
(so every flag reads exactly as before, leaving the event eligible for
retry). -/
theorem C4_unparseable_timed_skipped (fmt : FmtOracle) (now : NowTime)
    (t : SentTable) (e : Event) (hs : e.start = StartData.dateTime none) :
    processEvent fmt now t e = ⟨ensureKey t e.id, [], false⟩ ∧
    (∀ i m, getFlag (ensureKey t e.id) i m = getFlag t i m) :=
  ⟨processEvent_dateTime_none fmt now t e hs,
   fun i m => getFlag_ensureKey t e.id i m⟩

/-- Witness for the amended C4 at `evBadTimed` on the empty table. -/
theorem C4_unparseable_timed_skipped_witness :
    evBadTimed.start = StartData.dateTime none ∧
    processEvent fmt0 now0 [] evBadTimed = ⟨ensureKey [] evBadTimed.id, [], false⟩ ∧
    getFlag (ensureKey [] evBadTimed.id) "e1" Milestone.started
      = getFlag [] "e1" Milestone.started :=
  ⟨rfl,
   (C4_unparseable_timed_skipped fmt0 now0 [] evBadTimed rfl).1,
   (C4_unparseable_timed_skipped fmt0 now0 [] evBadTimed rfl).2 "e1" Milestone.started⟩

/-! ### Claim C10 -/

/-- C10: a timed event with parseable start whose `time_to_event` is at or
below -5 minutes produces no notification of any kind and sets no flag:
the call returns exactly the input table with an empty entry lazily created
for the identifier, and every flag reads exactly as before. -/
theorem C10_stale_event_no_effect (fmt : FmtOracle) (now : NowTime)
    (t : SentTable) (e : Event) (s : Int)
    (hs : e.start = StartData.dateTime (some s)) (h : s - now.instant ≤ -300) :
    processEvent fmt now t e = ⟨ensureKey t e.id, [], false⟩ ∧
    (∀ i m, getFlag (ensureKey t e.id) i m = getFlag t i m) := by
  refine ⟨?_, fun i m => getFlag_ensureKey t e.id i m⟩
  rw [processEvent_dateTime_some fmt now t e s hs]
  rw [if_neg (by omega : ¬(-300 < s - now.instant ∧ s - now.instant ≤ 0))]
  rw [thresholdLoop_nonpos fmt e s (s - now.instant) (by omega) [15, 5, 1] (ensureKey t e.id)]

/-- Witness for C10 at `evPastDemo` (start exactly 5 minutes before `now0`). -/
theorem C10_stale_event_no_effect_witness :
    evPastDemo.start = StartData.dateTime (some (-300)) ∧
    (-300 : Int) - now0.instant ≤ -300 ∧
    processEvent fmt0 now0 [] evPastDemo = ⟨ensureKey [] evPastDemo.id, [], false⟩ ∧
    getFlag (ensureKey [] evPastDemo.id) "w10" Milestone.started
      = getFlag [] "w10" Milestone.started :=
  ⟨rfl, by decide,
   (C10_stale_event_no_effect fmt0 now0 [] evPastDemo (-300) rfl (by decide)).1,
   (C10_stale_event_no_effect fmt0 now0 [] evPastDemo (-300) rfl (by decide)).2
     "w10" Milestone.started⟩

/-! ### Shape of emitted notifications -/

theorem notifFor_iff (ns : List Notif) (i : String) (m : Milestone) :
    notifFor ns i m = true ↔ ∃ n ∈ ns, n.eventId = i ∧ n.milestone = m := by
  simp [notifFor, List.any_eq_true]

theorem thresholdLoop_mem (fmt : FmtOracle) (e : Event) (s tte : Int) :
    ∀ (ms : List Nat) (t : SentTable) (n : Notif), n ∈ (thresholdLoop fmt e s tte t ms).2 →
      ∃ m, m ∈ ms ∧ n = ⟨e.id, Milestone.threshold m, "Upcoming Event: " ++ e.summary,
        upcomingMessage fmt s tte e.htmlLink⟩ := by
  intro ms
  induction ms with
  | nil => intro t n hn; simp at hn
  | cons m rest ih =>
      intro t n hn
      rw [thresholdLoop_cons] at hn
      split at hn
      · simp at hn
        exact ⟨m, List.mem_cons_self m rest, hn⟩
      · obtain ⟨m2, hm2, hn2⟩ := ih t n hn
        exact ⟨m2, List.mem_cons_of_mem m hm2, hn2⟩

theorem processEvent_notif_eventId (fmt : FmtOracle) (now : NowTime) (t : SentTable)
    (e : Event) : ∀ n ∈ (processEvent fmt now t e).notifs, n.eventId = e.id := by
  intro n hn
  cases hs : e.start with
  | dateTime p =>
      cases p with
      | none => rw [processEvent_dateTime_none fmt now t e hs] at hn; simp at hn
      | some s =>
          rw [processEvent_dateTime_some fmt now t e s hs] at hn
          split at hn
          · split at hn
            · simp at hn; rw [hn]
            · simp at hn
          · simp only [] at hn
            obtain ⟨m2, _, hn2⟩ := thresholdLoop_mem fmt e s (s - now.instant) [15, 5, 1]
              (ensureKey t e.id) n hn
            rw [hn2]
  | date p =>
      cases p with
      | none => rw [processEvent_date_none fmt now t e hs] at hn; simp at hn
      | some d =>
          rw [processEvent_date_some fmt now t e d hs] at hn
          split at hn
          · simp at hn; rw [hn]
          · simp at hn

/-! ### Claim C3 -/

/-- C3: for a timed event with parseable start, a started notification is
emitted exactly when `-5min < time_to_event <= 0` and the started flag is
unset; emission sets the flag; and inside the started window no threshold
notification is emitted in that pass. -/
theorem C3_started_window (fmt : FmtOracle) (now : NowTime) (t : SentTable)
    (e : Event) (s : Int) (hs : e.start = StartData.dateTime (some s)) :
    (notifFor (processEvent fmt now t e).notifs e.id Milestone.started = true ↔
      (-300 < s - now.instant ∧ s - now.instant ≤ 0 ∧
        getFlag t e.id Milestone.started = false)) ∧
    (notifFor (processEvent fmt now t e).notifs e.id Milestone.started = true →
      getFlag (processEvent fmt now t e).table e.id Milestone.started = true) ∧
    ((-300 < s - now.instant ∧ s - now.instant ≤ 0) →
      ∀ n ∈ (processEvent fmt now t e).notifs, ∀ m, n.milestone ≠ Milestone.threshold m) := by
  rw [processEvent_dateTime_some fmt now t e s hs]
  by_cases hw : -300 < s - now.instant ∧ s - now.instant ≤ 0
  · rw [if_pos hw]
    by_cases hf : getFlag (ensureKey t e.id) e.id Milestone.started = false
    · rw [if_pos hf]
      have hf2 : getFlag t e.id Milestone.started = false := by
        rw [← getFlag_ensureKey t e.id]; exact hf
      refine ⟨?_, ?_, ?_⟩
      · simp [notifFor_iff, hw.1, hw.2, hf2]
      · intro _
        exact getFlag_setFlag_self Milestone.started (hasKey_ensureKey_self t e.id)
      · intro _ n hn m
        simp at hn
        rw [hn]
        simp
    · rw [if_neg hf]
      have hf2 : getFlag t e.id Milestone.started = true := by
        rw [← getFlag_ensureKey t e.id]
        exact Bool.not_eq_false _ |>.mp hf
      refine ⟨?_, ?_, ?_⟩
      · simp [notifFor_iff, hf2]
      · simp [notifFor_iff]
      · intro _ n hn
        simp at hn
  · rw [if_neg hw]
    simp only []
    refine ⟨?_, ?_, ?_⟩
    · constructor
      · intro hnf
        obtain ⟨n, hn, _, hmil⟩ := (notifFor_iff _ _ _).mp hnf
        obtain ⟨m2, _, hn2⟩ := thresholdLoop_mem fmt e s (s - now.instant) [15, 5, 1]
          (ensureKey t e.id) n hn
        rw [hn2] at hmil
        simp at hmil
      · intro hrhs
        exact absurd ⟨hrhs.1, hrhs.2.1⟩ hw
    · intro hnf
      obtain ⟨n, hn, _, hmil⟩ := (notifFor_iff _ _ _).mp hnf
      obtain ⟨m2, _, hn2⟩ := thresholdLoop_mem fmt e s (s - now.instant) [15, 5, 1]
        (ensureKey t e.id) n hn
      rw [hn2] at hmil
      simp at hmil
    · intro hin
      exact absurd hin hw

/-- Witness for C3 at `evStartedDemo` on the empty table at `now0`. -/
theorem C3_started_window_witness :
    evStartedDemo.start = StartData.dateTime (some 0) ∧
    (notifFor (processEvent fmt0 now0 [] evStartedDemo).notifs
        evStartedDemo.id Milestone.started = true ↔
      (-300 < (0 : Int) - now0.instant ∧ (0 : Int) - now0.instant ≤ 0 ∧
        getFlag [] evStartedDemo.id Milestone.started = false)) :=
  ⟨rfl, (C3_started_window fmt0 now0 [] evStartedDemo 0 rfl).1⟩

/-! ### Projection views of one batch step -/

theorem check_and_remind_cons_notifs (fmt : FmtOracle) (now : NowTime) (t : SentTable)
    (e : Event) (rest : List Event) :
    (check_and_remind fmt now t (e :: rest)).notifs =
      if (processEvent fmt now t e).raised = true then (processEvent fmt now t e).notifs
      else (processEvent fmt now t e).notifs ++
        (check_and_remind fmt now (processEvent fmt now t e).table rest).notifs := by
  rw [check_and_remind_cons]
  simp only []
  split <;> rfl

theorem check_and_remind_cons_table (fmt : FmtOracle) (now : NowTime) (t : SentTable)
    (e : Event) (rest : List Event) :
    (check_and_remind fmt now t (e :: rest)).table =
      if (processEvent fmt now t e).raised = true then (processEvent fmt now t e).table
      else (check_and_remind fmt now (processEvent fmt now t e).table rest).table := by
  rw [check_and_remind_cons]
  simp only []
  split <;> rfl

theorem check_and_remind_cons_raised (fmt : FmtOracle) (now : NowTime) (t : SentTable)
    (e : Event) (rest : List Event) :
    (check_and_remind fmt now t (e :: rest)).raised =
      if (processEvent fmt now t e).raised = true then true
      else (check_and_remind fmt now (processEvent fmt now t e).table rest).raised := by
  rw [check_and_remind_cons]
  simp only []
  split <;> rfl

/-! ### Claim C6 -/

theorem processEvent_no_threshold_of_nonpos (fmt : FmtOracle) (now : NowTime)
    (t : SentTable) (e : Event) (s : Int)
    (hs : e.start = StartData.dateTime (some s)) (h : s - now.instant ≤ 0) :
    ∀ n ∈ (processEvent fmt now t e).notifs, ∀ m, n.milestone ≠ Milestone.threshold m := by
  intro n hn m
  rw [processEvent_dateTime_some fmt now t e s hs] at hn
  split at hn
  · split at hn
    · simp at hn
      rw [hn]
      simp
    · simp at hn
  · simp only [] at hn
    rw [thresholdLoop_nonpos fmt e s (s - now.instant) (by omega) [15, 5, 1]
      (ensureKey t e.id)] at hn
    simp at hn

theorem check_and_remind_no_threshold (fmt : FmtOracle) (now : NowTime)
    (i : String) (s : Int) (h : s - now.instant ≤ 0) :
    ∀ (evs : List Event), (∀ e ∈ evs, e.id = i → e.start = StartData.dateTime (some s)) →
      ∀ (t : SentTable), ∀ n ∈ (check_and_remind fmt now t evs).notifs,
        n.eventId = i → ∀ m, n.milestone ≠ Milestone.threshold m := by
  intro evs
  induction evs with
  | nil => intro _ t n hn; simp at hn
  | cons e rest ih =>
      intro hev t n hn hid m
      have hone : n ∈ (processEvent fmt now t e).notifs →
          n.milestone ≠ Milestone.threshold m := by
        intro hn2
        by_cases hi : e.id = i
        · exact processEvent_no_threshold_of_nonpos fmt now t e s
            (hev e (List.mem_cons_self e rest) hi) h n hn2 m
        · have := processEvent_notif_eventId fmt now t e n hn2
          rw [hid] at this
          exact absurd this.symm hi
      rw [check_and_remind_cons_notifs] at hn
      split at hn
      · exact hone hn
      · rcases List.mem_append.mp hn with hn2 | hn2
        · exact hone hn2
        · exact ih (fun e2 he2 => hev e2 (List.mem_cons_of_mem e he2))
            (processEvent fmt now t e).table n hn2 hid m

theorem chronoFrom_mono {s s2 : Int} (h : s ≤ s2) :
    ∀ bs, chronoFrom s2 bs → chronoFrom s bs := by
  intro bs hc
  cases bs with
  | nil => trivial
  | cons b rest => exact ⟨le_trans h hc.1, hc.2⟩

/-- C6: if an event's (fixed, parseable) start is already at or before the
first call's instant, and the wall clock never goes backwards from call to
call, then no threshold notification for that identifier is emitted in that
call or any later call of the run. -/
theorem C6_nonpos_suppresses_thresholds (fmt : FmtOracle) (i : String) (s : Int) :
    ∀ (bs : List (NowTime × List Event)) (t : SentTable),
      (∀ b ∈ bs, ∀ e ∈ b.2, e.id = i → e.start = StartData.dateTime (some s)) →
      chronoFrom s bs →
      ∀ n ∈ (runBatches fmt t bs).2, n.eventId = i →
        ∀ m, n.milestone ≠ Milestone.threshold m := by
  intro bs
  induction bs with
  | nil => intro t _ _ n hn; simp at hn
  | cons b rest ih =>
      intro t hev hc n hn hid m
      rw [runBatches_cons] at hn
      simp only [] at hn
      rcases List.mem_append.mp hn with hn2 | hn2
      · exact check_and_remind_no_threshold fmt b.1 i s (by have := hc.1; omega)
          b.2 (hev b (List.mem_cons_self b rest)) t n hn2 hid m
      · exact ih (check_and_remind fmt b.1 t b.2).table
          (fun b2 hb2 => hev b2 (List.mem_cons_of_mem b hb2))
          (chronoFrom_mono hc.1 rest hc.2) n hn2 hid m

/-- Witness for C6: one poll of `evStartedDemo` at `now0` from the empty
table emits exactly the started notification, which is not a threshold
notification. -/
theorem C6_nonpos_suppresses_thresholds_witness :
    (∀ b ∈ bsDemo, ∀ e ∈ b.2, e.id = "e" → e.start = StartData.dateTime (some 0)) ∧
    chronoFrom 0 bsDemo ∧
    (⟨"e", Milestone.started, "Event Started: T",
        "It\x27s happening now! Link: #"⟩ : Notif) ∈ (runBatches fmt0 [] bsDemo).2 ∧
    (⟨"e", Milestone.started, "Event Started: T",
        "It\x27s happening now! Link: #"⟩ : Notif).milestone ≠ Milestone.threshold 5 := by
  have hev : ∀ b ∈ bsDemo, ∀ e ∈ b.2, e.id = "e" →
      e.start = StartData.dateTime (some 0) := by
    intro b hb e2 he2 _
    have hb2 : b = (now0, [evStartedDemo]) := by simpa [bsDemo] using hb
    rw [hb2] at he2
    have he3 : e2 = evStartedDemo := by simpa using he2
    rw [he3]
    rfl
  have hc : chronoFrom 0 bsDemo := by
    simp [bsDemo, chronoFrom, now0]
  have hmem : (⟨"e", Milestone.started, "Event Started: T",
      "It\x27s happening now! Link: #"⟩ : Notif) ∈ (runBatches fmt0 [] bsDemo).2 := by
    decide
  exact ⟨hev, hc, hmem,
    C6_nonpos_suppresses_thresholds fmt0 "e" 0 bsDemo [] hev hc _ hmem rfl 5⟩

/-! ### Claim C8 -/

theorem check_and_remind_single_table (fmt : FmtOracle) (now : NowTime)
    (t : SentTable) (e : Event) :
    (check_and_remind fmt now t [e]).table = (processEvent fmt now t e).table := by
  rw [check_and_remind_cons_table]
  split <;> rfl

/-- C8: for an all-day event, the all-day notification is emitted exactly
when the event's date equals the call's local date and the `all_day_today`
flag is unset; every notification the event can emit is an all-day one (it
never passes through the timed logic); emission sets the flag; and across a
whole day of polls (every poll sees the event, every poll's local date is
the event's date) exactly one all-day notification is emitted, regardless
of the number of polls. -/
theorem C8_all_day_exactly_once (fmt : FmtOracle) (now : NowTime) (t : SentTable)
    (e : Event) (d : Int) (hs : e.start = StartData.date (some d)) :
    (notifFor (processEvent fmt now t e).notifs e.id Milestone.all_day_today = true ↔
      (d = now.date ∧ getFlag t e.id Milestone.all_day_today = false)) ∧
    (∀ n ∈ (processEvent fmt now t e).notifs, n.milestone = Milestone.all_day_today) ∧
    (d = now.date ∧ getFlag t e.id Milestone.all_day_today = false →
      getFlag (processEvent fmt now t e).table e.id Milestone.all_day_today = true) ∧
    (∀ (nws : List NowTime), nws ≠ [] → (∀ nw ∈ nws, nw.date = d) →
      getFlag t e.id Milestone.all_day_today = false →
      countNotifs (runBatches fmt t (nws.map fun nw => (nw, [e]))).2
        e.id Milestone.all_day_today = 1) := by
  have hfire : ∀ (now2 : NowTime) (t2 : SentTable),
      d = now2.date → getFlag t2 e.id Milestone.all_day_today = false →
      getFlag (processEvent fmt now2 t2 e).table e.id Milestone.all_day_today = true := by
    intro now2 t2 hd hf
    rw [processEvent_date_some fmt now2 t2 e d hs]
    rw [if_pos ⟨hd, by rw [getFlag_ensureKey]; exact hf⟩]
    exact getFlag_setFlag_self Milestone.all_day_today (hasKey_ensureKey_self t2 e.id)
  refine ⟨?_, ?_, ?_, ?_⟩
  · rw [processEvent_date_some fmt now t e d hs]
    by_cases hc : d = now.date ∧ getFlag (ensureKey t e.id) e.id Milestone.all_day_today = false
    · rw [if_pos hc]
      have hf2 : getFlag t e.id Milestone.all_day_today = false := by
        rw [← getFlag_ensureKey t e.id]; exact hc.2
      simp [notifFor_iff, hc.1, hf2]
    · rw [if_neg hc]
      have : ¬(d = now.date ∧ getFlag t e.id Milestone.all_day_today = false) := by
        intro hx
        exact hc ⟨hx.1, by rw [getFlag_ensureKey]; exact hx.2⟩
      simp [notifFor_iff, this]
  · intro n hn
    rw [processEvent_date_some fmt now t e d hs] at hn
    split at hn
    · simp at hn; rw [hn]
    · simp at hn
  · intro hx
    exact hfire now t hx.1 hx.2
  · intro nws hne hdates hflag
    cases nws with
    | nil => exact absurd rfl hne
    | cons nw rest =>
        have hcount := runBatches_count fmt e.id Milestone.all_day_today
          (((nw :: rest).map fun nw2 => (nw2, [e]))) t
        have h0 : flagNat t e.id Milestone.all_day_today = 0 := flagNat_of_false hflag
        have hfinal : getFlag (runBatches fmt t
            ((nw :: rest).map fun nw2 => (nw2, [e]))).1 e.id Milestone.all_day_today = true := by
          rw [List.map_cons, runBatches_cons]
          simp only []
          apply runBatches_flagLe fmt (rest.map fun nw2 => (nw2, [e]))
          rw [check_and_remind_single_table]
          exact hfire nw t (hdates nw (List.mem_cons_self nw rest)).symm hflag
        have h1 : flagNat (runBatches fmt t
            ((nw :: rest).map fun nw2 => (nw2, [e]))).1 e.id Milestone.all_day_today = 1 :=
          flagNat_of_true hfinal
        omega

/-- Witness for C8: `evAllDay` polled once at `now0` from the empty table. -/
theorem C8_all_day_exactly_once_witness :
    evAllDay.start = StartData.date (some 0) ∧
    ([now0] ≠ ([] : List NowTime)) ∧
    (∀ nw ∈ [now0], nw.date = 0) ∧
    getFlag [] evAllDay.id Milestone.all_day_today = false ∧
    countNotifs (runBatches fmt0 [] ([now0].map fun nw => (nw, [evAllDay]))).2
      evAllDay.id Milestone.all_day_today = 1 :=
  ⟨rfl, by simp, by decide, by decide,
   (C8_all_day_exactly_once fmt0 now0 [] evAllDay 0 rfl).2.2.2
     [now0] (by simp) (by decide) (by decide)⟩

/-! ### Claim C5 -/

/-- C5 (counterexample to the claim as stated): a batch holding one all-day
event whose date value is unparseable makes the evaluation raise (the
`strptime` at line 201 has no handler), contradicting "never raises ...
an unparseable start value (whether a timed dateTime or an all-day date
string) is logged and the event skipped". -/
theorem C5_counterexample :
    (check_and_remind fmt0 now0 [] [evBadDate]).raised = true := by decide

theorem processEvent_raised_iff (fmt : FmtOracle) (now : NowTime) (t : SentTable)
    (e : Event) :
    (processEvent fmt now t e).raised = true ↔ e.start = StartData.date none := by
  cases hs : e.start with
  | dateTime p =>
      cases p with
      | none => rw [processEvent_dateTime_none fmt now t e hs]; simp
      | some s =>
          rw [processEvent_dateTime_some fmt now t e s hs]
          split
          · split <;> simp
          · simp
  | date p =>
      cases p with
      | none => rw [processEvent_date_none fmt now t e hs]; simp
      | some d =>
          rw [processEvent_date_some fmt now t e d hs]
          split <;> simp

theorem check_and_remind_raised_false (fmt : FmtOracle) (now : NowTime) :
    ∀ (evs : List Event), (∀ e ∈ evs, e.start ≠ StartData.date none) →
      ∀ (t : SentTable), (check_and_remind fmt now t evs).raised = false := by
  intro evs
  induction evs with
  | nil => intro _ t; rfl
  | cons e rest ih =>
      intro hev t
      rw [check_and_remind_cons_raised]
      split
      · next hr =>
          exact absurd ((processEvent_raised_iff fmt now t e).mp hr)
            (hev e (List.mem_cons_self e rest))
      · exact ih (fun e2 he2 => hev e2 (List.mem_cons_of_mem e he2))
          (processEvent fmt now t e).table

theorem thresholdLoop_silent_of_flags (fmt : FmtOracle) (e : Event) (s tte : Int) :
    ∀ (ms : List Nat) (t : SentTable),
      (∀ m ∈ ms, getFlag t e.id (Milestone.threshold m) = true) →
      thresholdLoop fmt e s tte t ms = (t, []) := by
  intro ms
  induction ms with
  | nil => intro t _; rfl
  | cons m rest ih =>
      intro t hf
      rw [thresholdLoop_cons, if_neg]
      · exact ih t (fun m2 hm2 => hf m2 (List.mem_cons_of_mem m hm2))
      · intro hc
        rw [hf m (List.mem_cons_self m rest)] at hc
        exact absurd hc.2.2 (by simp)

theorem allMilestonesSent_ensureKey {t : SentTable} {i : String} (j : String)
    (h : allMilestonesSent t i) : allMilestonesSent (ensureKey t j) i :=
  ⟨by rw [getFlag_ensureKey]; exact h.1,
   by rw [getFlag_ensureKey]; exact h.2.1,
   fun m hm => by rw [getFlag_ensureKey]; exact h.2.2 m hm⟩

theorem processEvent_silent_of_flags (fmt : FmtOracle) (now : NowTime)
    (t : SentTable) (e : Event) (hne : e.start ≠ StartData.date none)
    (hflags : allMilestonesSent t e.id) :
    processEvent fmt now t e = ⟨ensureKey t e.id, [], false⟩ := by
  cases hs : e.start with
  | dateTime p =>
      cases p with
      | none => exact processEvent_dateTime_none fmt now t e hs
      | some s =>
          rw [processEvent_dateTime_some fmt now t e s hs]
          split
          · rw [if_neg]
            rw [getFlag_ensureKey, hflags.1]
            simp
          · rw [thresholdLoop_silent_of_flags fmt e s (s - now.instant) [15, 5, 1]
              (ensureKey t e.id)
              (fun m hm => by rw [getFlag_ensureKey]; exact hflags.2.2 m hm)]
  | date p =>
      cases p with
      | none => exact absurd hs hne
      | some d =>
          rw [processEvent_date_some fmt now t e d hs]
          rw [if_neg]
          intro hc
          rw [getFlag_ensureKey, hflags.2.1] at hc
          exact absurd hc.2 (by simp)

theorem check_and_remind_silent_of_flags (fmt : FmtOracle) (now : NowTime) :
    ∀ (evs : List Event) (t : SentTable),
      (∀ e ∈ evs, e.start ≠ StartData.date none) →
      (∀ e ∈ evs, allMilestonesSent t e.id) →
      (check_and_remind fmt now t evs).notifs = [] := by
  intro evs
  induction evs with
  | nil => intro t _ _; rfl
  | cons e rest ih =>
      intro t hev hflags
      have hpe : processEvent fmt now t e = ⟨ensureKey t e.id, [], false⟩ :=
        processEvent_silent_of_flags fmt now t e (hev e (List.mem_cons_self e rest))
          (hflags e (List.mem_cons_self e rest))
      rw [check_and_remind_cons_notifs, hpe]
      simp only []
      rw [if_neg (by simp)]
      simp only [List.nil_append]
      exact ih (ensureKey t e.id)
        (fun e2 he2 => hev e2 (List.mem_cons_of_mem e he2))
        (fun e2 he2 =>
          allMilestonesSent_ensureKey e.id (hflags e2 (List.mem_cons_of_mem e he2)))

/-- C5 (amended): the evaluation has no failure mode of its own apart from
the unhandled all-day date parse: an empty batch is a no-op; a timed event
whose start neither accepted format parses is logged and skipped with no
milestone set; a batch without unparseable all-day dates never raises; and
a batch without unparseable all-day dates whose milestones are all already
sent emits nothing. (An unparseable all-day date value does raise an
uncaught `ValueError` - see the counterexample.) -/
theorem C5_no_raise_except_bad_all_day_date (fmt : FmtOracle) (now : NowTime)
    (t : SentTable) :
    check_and_remind fmt now t [] = ⟨t, [], false⟩ ∧
    (∀ e : Event, e.start = StartData.dateTime none →
      processEvent fmt now t e = ⟨ensureKey t e.id, [], false⟩) ∧
    (∀ evs : List Event, (∀ e ∈ evs, e.start ≠ StartData.date none) →
      (check_and_remind fmt now t evs).raised = false) ∧
    (∀ evs : List Event, (∀ e ∈ evs, e.start ≠ StartData.date none) →
      (∀ e ∈ evs, allMilestonesSent t e.id) →
      (check_and_remind fmt now t evs).notifs = []) :=
  ⟨rfl,
   fun e hs => processEvent_dateTime_none fmt now t e hs,
   fun evs hev => check_and_remind_raised_false fmt now evs hev t,
   fun evs hev hflags => check_and_remind_silent_of_flags fmt now evs t hev hflags⟩

/-- Witness for the amended C5: a one-event batch holding `evBadTimed`
(unparseable timed start: skipped, no raise), and a batch holding
`evStartedDemo` against `tAllSent`, the table with every closed-set
milestone already fired, which emits nothing. -/
theorem C5_no_raise_except_bad_all_day_date_witness :
    evBadTimed.start = StartData.dateTime none ∧
    (∀ e ∈ [evBadTimed], e.start ≠ StartData.date none) ∧
    processEvent fmt0 now0 [] evBadTimed = ⟨ensureKey [] evBadTimed.id, [], false⟩ ∧
    (check_and_remind fmt0 now0 [] [evBadTimed]).raised = false ∧
    (∀ e ∈ [evStartedDemo], e.start ≠ StartData.date none) ∧
    (∀ e ∈ [evStartedDemo], allMilestonesSent tAllSent e.id) ∧
    (check_and_remind fmt0 now0 tAllSent [evStartedDemo]).notifs = [] :=
  ⟨rfl, by decide,
   (C5_no_raise_except_bad_all_day_date fmt0 now0 []).2.1 evBadTimed rfl,
   (C5_no_raise_except_bad_all_day_date fmt0 now0 []).2.2.1 [evBadTimed] (by decide),
   by decide, by decide,
   (C5_no_raise_except_bad_all_day_date fmt0 now0 tAllSent).2.2.2 [evStartedDemo]
     (by decide) (by decide)⟩

/-! ### Claim C2 -/

theorem thrWindow_pairwise_disjoint (tte : Int) :
    List.Pairwise (fun a b => ¬(thrWindow a tte ∧ thrWindow b tte)) [15, 5, 1] := by
  simp [List.pairwise_cons, thrWindow]
  omega

theorem thresholdLoop_length_le_one (fmt : FmtOracle) (e : Event) (s tte : Int) :
    ∀ (ms : List Nat) (t : SentTable), (thresholdLoop fmt e s tte t ms).2.length ≤ 1 := by
  intro ms
  induction ms with
  | nil => intro t; simp
  | cons m rest ih =>
      intro t
      rw [thresholdLoop_cons]
      split
      · simp
      · exact ih t

theorem thresholdLoop_fires_iff (fmt : FmtOracle) (e : Event) (s tte : Int)
    (hpos : 0 < tte) :
    ∀ (ms : List Nat) (t : SentTable),
      List.Pairwise (fun a b => ¬(thrWindow a tte ∧ thrWindow b tte)) ms →
      ∀ m, notifFor (thresholdLoop fmt e s tte t ms).2 e.id (Milestone.threshold m) = true ↔
        (m ∈ ms ∧ thrWindow m tte ∧ getFlag t e.id (Milestone.threshold m) = false) := by
  intro ms
  induction ms with
  | nil =>
      intro t _ m
      simp [notifFor_iff]
  | cons m0 rest ih =>
      intro t hpw m
      obtain ⟨hhead, hrest⟩ := List.pairwise_cons.mp hpw
      rw [thresholdLoop_cons]
      by_cases hc : thrWindow m0 tte ∧ 0 < tte ∧ getFlag t e.id (Milestone.threshold m0) = false
      · rw [if_pos hc]
        constructor
        · intro hlhs
          obtain ⟨n, hn, _, hmil⟩ := (notifFor_iff _ _ _).mp hlhs
          have hn2 : n = ⟨e.id, Milestone.threshold m0, "Upcoming Event: " ++ e.summary,
              upcomingMessage fmt s tte e.htmlLink⟩ := by simpa using hn
          rw [hn2] at hmil
          simp at hmil
          rw [← hmil]
          exact ⟨List.mem_cons_self m0 rest, hc.1, hc.2.2⟩
        · rintro ⟨hmem, hwin, hflag⟩
          rcases List.mem_cons.mp hmem with hm0 | hmr
          · subst hm0
            rw [notifFor_iff]
            exact ⟨_, List.mem_singleton_self _, rfl, rfl⟩
          · exact absurd ⟨hc.1, hwin⟩ (hhead m hmr)
      · rw [if_neg hc]
        rw [ih t hrest m]
        constructor
        · rintro ⟨hmem, hwin, hflag⟩
          exact ⟨List.mem_cons_of_mem m0 hmem, hwin, hflag⟩
        · rintro ⟨hmem, hwin, hflag⟩
          rcases List.mem_cons.mp hmem with hm0 | hmr
          · subst hm0
            exact absurd ⟨hwin, hpos, hflag⟩ hc
          · exact ⟨hmr, hwin, hflag⟩

/-- C2: for a timed event with parseable start and positive `time_to_event`,
a threshold `m` fires exactly when `m` is one of the configured thresholds,
`-10s <= time_to_event - m < 60s`, and its flag is unset (since the
descending loop breaks after a fire and the three tolerance windows are
pairwise disjoint, an eligible threshold is never shadowed); and at most
one threshold notification is emitted for the event in the call. -/
theorem C2_threshold_fires_iff (fmt : FmtOracle) (now : NowTime) (t : SentTable)
    (e : Event) (s : Int) (hs : e.start = StartData.dateTime (some s))
    (hpos : 0 < s - now.instant) :
    (∀ m : Nat, notifFor (processEvent fmt now t e).notifs e.id (Milestone.threshold m) = true ↔
      (m ∈ reminder_thresholds ∧ thrWindow m (s - now.instant) ∧
        getFlag t e.id (Milestone.threshold m) = false)) ∧
    (processEvent fmt now t e).notifs.length ≤ 1 := by
  rw [processEvent_dateTime_some fmt now t e s hs]
  rw [if_neg (by omega : ¬(-300 < s - now.instant ∧ s - now.instant ≤ 0))]
  simp only []
  constructor
  · intro m
    have h := thresholdLoop_fires_iff fmt e s (s - now.instant) hpos [15, 5, 1]
      (ensureKey t e.id) (thrWindow_pairwise_disjoint (s - now.instant)) m
    rw [getFlag_ensureKey] at h
    exact h
  · exact thresholdLoop_length_le_one fmt e s (s - now.instant) [15, 5, 1] (ensureKey t e.id)

/-- Witness for C2 at `evThrDemo` (start 890 s ahead, inside the 15-minute
window) on the empty table. -/
theorem C2_threshold_fires_iff_witness :
    evThrDemo.start = StartData.dateTime (some 890) ∧
    (0 : Int) < 890 - now0.instant ∧
    (notifFor (processEvent fmt0 now0 [] evThrDemo).notifs evThrDemo.id
        (Milestone.threshold 15) = true ↔
      (15 ∈ reminder_thresholds ∧ thrWindow 15 (890 - now0.instant) ∧
        getFlag [] evThrDemo.id (Milestone.threshold 15) = false)) ∧
    (processEvent fmt0 now0 [] evThrDemo).notifs.length ≤ 1 :=
  ⟨rfl, by decide,
   (C2_threshold_fires_iff fmt0 now0 [] evThrDemo 890 rfl (by decide)).1 15,
   (C2_threshold_fires_iff fmt0 now0 [] evThrDemo 890 rfl (by decide)).2⟩

/-! ### Claim C9 -/

/-- C9: every upcoming (threshold) notification's message reports the
remaining time as the floor of `time_to_event`'s total seconds divided by
60, rendered as "less than a minute" when that floor is 0 and as
"(value) minutes" otherwise, inside the exact message template the code
builds. -/
theorem C9_upcoming_message_minutes (fmt : FmtOracle) (now : NowTime) (t : SentTable)
    (e : Event) (n : Notif) (hn : n ∈ (processEvent fmt now t e).notifs)
    (hm : ∃ m, n.milestone = Milestone.threshold m) :
    ∃ s, e.start = StartData.dateTime (some s) ∧
      n.message = "Starts in approx. " ++
        (if Int.fdiv (s - now.instant) 60 = 0 then "less than a minute"
         else toString (Int.fdiv (s - now.instant) 60) ++ " minutes") ++
        " at " ++ fmt.strfTime s ++ " (" ++ fmt.tzName s ++ ").\n" ++
        "Link: " ++ e.htmlLink := by
  obtain ⟨m, hmil⟩ := hm
  cases hs : e.start with
  | dateTime p =>
      cases p with
      | none =>
          rw [processEvent_dateTime_none fmt now t e hs] at hn
          simp at hn
      | some s =>
          refine ⟨s, rfl, ?_⟩
          rw [processEvent_dateTime_some fmt now t e s hs] at hn
          split at hn
          · split at hn
            · simp at hn
              rw [hn] at hmil
              simp at hmil
            · simp at hn
          · simp only [] at hn
            obtain ⟨m2, _, hn2⟩ := thresholdLoop_mem fmt e s (s - now.instant) [15, 5, 1]
              (ensureKey t e.id) n hn
            rw [hn2]
            simp [upcomingMessage, minutesText]
  | date p =>
      cases p with
      | none =>
          rw [processEvent_date_none fmt now t e hs] at hn
          simp at hn
      | some d =>
          rw [processEvent_date_some fmt now t e d hs] at hn
          split at hn
          · simp at hn
            rw [hn] at hmil
            simp at hmil
          · simp at hn

/-- Witness for C9 at the notification `evThrDemo` emits at `now0` (890 s
to go, so the floor is 14 and the message says "14 minutes"). -/
theorem C9_upcoming_message_minutes_witness :
    (⟨"w2", Milestone.threshold 15, "Upcoming Event: T",
        "Starts in approx. 14 minutes at  ().\nLink: #"⟩ : Notif) ∈
      (processEvent fmt0 now0 [] evThrDemo).notifs ∧
    (∃ m, (⟨"w2", Milestone.threshold 15, "Upcoming Event: T",
        "Starts in approx. 14 minutes at  ().\nLink: #"⟩ : Notif).milestone
      = Milestone.threshold m) ∧
    ∃ s, evThrDemo.start = StartData.dateTime (some s) ∧
      (⟨"w2", Milestone.threshold 15, "Upcoming Event: T",
          "Starts in approx. 14 minutes at  ().\nLink: #"⟩ : Notif).message =
        "Starts in approx. " ++
          (if Int.fdiv (s - now0.instant) 60 = 0 then "less than a minute"
           else toString (Int.fdiv (s - now0.instant) 60) ++ " minutes") ++
          " at " ++ fmt0.strfTime s ++ " (" ++ fmt0.tzName s ++ ").\n" ++
          "Link: " ++ evThrDemo.htmlLink :=
  ⟨by decide, ⟨15, rfl⟩,
   C9_upcoming_message_minutes fmt0 now0 [] evThrDemo
     ⟨"w2", Milestone.threshold 15, "Upcoming Event: T",
       "Starts in approx. 14 minutes at  ().\nLink: #"⟩ (by decide) ⟨15, rfl⟩⟩

/-! ### Claim C7 -/

theorem thresholdLoop_silent_of_blocked (fmt : FmtOracle) (e : Event) (s tte : Int) :
    ∀ (ms : List Nat) (t : SentTable),
      (∀ m ∈ ms, ¬ thrWindow m tte ∨ getFlag t e.id (Milestone.threshold m) = true) →
      thresholdLoop fmt e s tte t ms = (t, []) := by
  intro ms
  induction ms with
  | nil => intro t _; rfl
  | cons m rest ih =>
      intro t hb
      rw [thresholdLoop_cons, if_neg]
      · exact ih t (fun m2 hm2 => hb m2 (List.mem_cons_of_mem m hm2))
      · intro hc
        rcases hb m (List.mem_cons_self m rest) with hw | hf
        · exact hw hc.1
        · rw [hf] at hc
          exact absurd hc.2.2 (by simp)

theorem thresholdLoop_flag_after (fmt : FmtOracle) (e : Event) (s tte : Int)
    (hpos : 0 < tte) :
    ∀ (ms : List Nat) (t : SentTable), hasKey t e.id = true →
      List.Pairwise (fun a b => ¬(thrWindow a tte ∧ thrWindow b tte)) ms →
      ∀ m ∈ ms, thrWindow m tte →
        getFlag (thresholdLoop fmt e s tte t ms).1 e.id (Milestone.threshold m) = true := by
  intro ms
  induction ms with
  | nil => intro t _ _ m hm; simp at hm
  | cons m0 rest ih =>
      intro t hk hpw m hm wm
      obtain ⟨hhead, hrest⟩ := List.pairwise_cons.mp hpw
      rw [thresholdLoop_cons]
      by_cases hc : thrWindow m0 tte ∧ 0 < tte ∧
          getFlag t e.id (Milestone.threshold m0) = false
      · rw [if_pos hc]
        rcases List.mem_cons.mp hm with hm0 | hmr
        · subst hm0
          exact getFlag_setFlag_self _ hk
        · exact absurd ⟨hc.1, wm⟩ (hhead m hmr)
      · rw [if_neg hc]
        rcases List.mem_cons.mp hm with hm0 | hmr
        · subst hm0
          have hf : getFlag t e.id (Milestone.threshold m) = true := by
            cases hgf : getFlag t e.id (Milestone.threshold m) with
            | false => exact absurd ⟨wm, hpos, hgf⟩ hc
            | true => rfl
          exact thresholdLoop_flagLe fmt e s tte rest t e.id _ hf
        · exact ih t hk hrest m hmr wm

theorem thresholdLoop_repoll (fmt : FmtOracle) (e : Event) (s tte : Int)
    (t t2 : SentTable) (hk : hasKey t e.id = true)
    (hle : flagLe (thresholdLoop fmt e s tte t [15, 5, 1]).1 t2) :
    thresholdLoop fmt e s tte t2 [15, 5, 1] = (t2, []) := by
  by_cases hpos : 0 < tte
  · apply thresholdLoop_silent_of_blocked
    intro m hm
    by_cases wm : thrWindow m tte
    · exact Or.inr (hle _ _ (thresholdLoop_flag_after fmt e s tte hpos [15, 5, 1] t hk
        (thrWindow_pairwise_disjoint tte) m hm wm))
    · exact Or.inl wm
  · exact thresholdLoop_nonpos fmt e s tte hpos [15, 5, 1] t2

theorem processEvent_repoll (fmt : FmtOracle) (now : NowTime) (e : Event)
    (t t2 : SentTable) (hle : flagLe (processEvent fmt now t e).table t2)
    (hk : keyLe (processEvent fmt now t e).table t2) :
    processEvent fmt now t2 e = ⟨t2, [], (processEvent fmt now t e).raised⟩ := by
  have hk2 : hasKey t2 e.id = true := hk e.id (processEvent_hasKey_self fmt now t e)
  have hek : ensureKey t2 e.id = t2 := ensureKey_of_hasKey hk2
  cases hs : e.start with
  | dateTime p =>
      cases p with
      | none =>
          rw [processEvent_dateTime_none fmt now t2 e hs,
            processEvent_dateTime_none fmt now t e hs, hek]
      | some s =>
          rw [processEvent_dateTime_some fmt now t2 e s hs]
          have hr : (processEvent fmt now t e).raised = false := by
            rw [processEvent_dateTime_some fmt now t e s hs]
            split
            · split <;> rfl
            · rfl
          rw [hr]
          by_cases hw : -300 < s - now.instant ∧ s - now.instant ≤ 0
          · rw [if_pos hw]
            have hst : getFlag (processEvent fmt now t e).table e.id
                Milestone.started = true := by
              rw [processEvent_dateTime_some fmt now t e s hs, if_pos hw]
              by_cases hf : getFlag (ensureKey t e.id) e.id Milestone.started = false
              · rw [if_pos hf]
                exact getFlag_setFlag_self Milestone.started (hasKey_ensureKey_self t e.id)
              · rw [if_neg hf]
                simp only []
                exact (Bool.not_eq_false _).mp hf
            rw [hek, if_neg (by rw [hle _ _ hst]; simp)]
          · rw [if_neg hw]
            simp only []
            rw [hek]
            have htab : (processEvent fmt now t e).table =
                (thresholdLoop fmt e s (s - now.instant) (ensureKey t e.id) [15, 5, 1]).1 := by
              rw [processEvent_dateTime_some fmt now t e s hs, if_neg hw]
            rw [thresholdLoop_repoll fmt e s (s - now.instant) (ensureKey t e.id) t2
              (hasKey_ensureKey_self t e.id) (by rw [← htab]; exact hle)]
  | date p =>
      cases p with
      | none =>
          rw [processEvent_date_none fmt now t2 e hs,
            processEvent_date_none fmt now t e hs, hek]
      | some d =>
          rw [processEvent_date_some fmt now t2 e d hs]
          have hr : (processEvent fmt now t e).raised = false := by
            rw [processEvent_date_some fmt now t e d hs]
            split <;> rfl
          rw [hr]
          have hflag1 : d = now.date →
              getFlag (processEvent fmt now t e).table e.id Milestone.all_day_today = true := by
            intro hd
            rw [processEvent_date_some fmt now t e d hs]
            by_cases hc : d = now.date ∧
                getFlag (ensureKey t e.id) e.id Milestone.all_day_today = false
            · rw [if_pos hc]
              exact getFlag_setFlag_self _ (hasKey_ensureKey_self t e.id)
            · rw [if_neg hc]
              simp only []
              cases hgf : getFlag (ensureKey t e.id) e.id Milestone.all_day_today with
              | false => exact absurd ⟨hd, hgf⟩ hc
              | true => rfl
          have hcond : ¬(d = now.date ∧ getFlag t2 e.id Milestone.all_day_today = false) := by
            rintro ⟨hd, hf2⟩
            rw [hle _ _ (hflag1 hd)] at hf2
            exact absurd hf2 (by simp)
          rw [hek, if_neg hcond]

theorem check_and_remind_repoll (fmt : FmtOracle) (now : NowTime) :
    ∀ (evs : List Event) (t t2 : SentTable),
      flagLe (check_and_remind fmt now t evs).table t2 →
      keyLe (check_and_remind fmt now t evs).table t2 →
      check_and_remind fmt now t2 evs = ⟨t2, [], (check_and_remind fmt now t evs).raised⟩ := by
  intro evs
  induction evs with
  | nil => intro t t2 _ _; rfl
  | cons e rest ih =>
      intro t t2 hle hk
      by_cases hr : (processEvent fmt now t e).raised = true
      · have htab : (check_and_remind fmt now t (e :: rest)).table =
            (processEvent fmt now t e).table := by
          rw [check_and_remind_cons_table, if_pos hr]
        rw [htab] at hle hk
        have hpe : processEvent fmt now t2 e = ⟨t2, [], true⟩ := by
          rw [processEvent_repoll fmt now e t t2 hle hk, hr]
        rw [check_and_remind_cons, hpe]
        simp only []
        rw [if_pos True.intro, check_and_remind_cons_raised, if_pos hr]
      · have hr2 : (processEvent fmt now t e).raised = false := by
          cases h2 : (processEvent fmt now t e).raised with
          | false => rfl
          | true => exact absurd h2 hr
        have htab : (check_and_remind fmt now t (e :: rest)).table =
            (check_and_remind fmt now (processEvent fmt now t e).table rest).table := by
          rw [check_and_remind_cons_table, if_neg hr]
        rw [htab] at hle hk
        have hle0 : flagLe (processEvent fmt now t e).table t2 :=
          flagLe_trans (check_and_remind_flagLe fmt now rest (processEvent fmt now t e).table) hle
        have hk0 : keyLe (processEvent fmt now t e).table t2 :=
          keyLe_trans (check_and_remind_keyLe fmt now rest (processEvent fmt now t e).table) hk
        have hpe : processEvent fmt now t2 e = ⟨t2, [], false⟩ := by
          rw [processEvent_repoll fmt now e t t2 hle0 hk0, hr2]
        have hrest := ih (processEvent fmt now t e).table t2 hle hk
        rw [check_and_remind_cons, hpe]
        simp only []
        rw [if_neg (by simp), hrest]
        rw [check_and_remind_cons_raised, if_neg hr]
        rfl

/-- C7: running the evaluation a second time with the identical event batch
and the unchanged `now`, starting from the table the first run produced,
emits zero notifications. -/
theorem C7_idempotent_repoll (fmt : FmtOracle) (now : NowTime) (t : SentTable)
    (evs : List Event) :
    (check_and_remind fmt now (check_and_remind fmt now t evs).table evs).notifs = [] := by
  rw [check_and_remind_repoll fmt now evs t (check_and_remind fmt now t evs).table
    (flagLe_refl _) (keyLe_refl _)]
